import Mathlib

/-
  Verification development for the NachOS-derived file system
  (filehdr.cc / filehdr.h / filesys.cc / filesys.h / ksyscall.h).

  Shallow embedding: the C++ classes become Lean structures, member
  functions become pure functions threading the mutated state
  explicitly, and a fatal `ASSERT` failure is modelled as the `none`
  result of an `Option`-valued run (nothing observable happens after a
  NachOS assertion fires).  Machine `int`s are modelled as `Int`; all
  quantities involved in the claims are far below 2^31, so overflow
  does not arise.
-/

set_option autoImplicit false

namespace NachFS

/-! ## Constants

`SectorSize` comes from the disk collaborator (disk.h, not among the
sources); the header comments in filehdr.h ("this give another
128 * 31 Byte", "128 * (28+31+31*31) Bytes") fix it at 128 bytes with
4-byte ints, which also matches the macro values below.

filehdr.h:
  NumDirect   = (SectorSize - 4 * sizeof(int)) / sizeof(int) = 28
  NumIndirect = (SectorSize - 1 * sizeof(int)) / sizeof(int) = 31
-/

def SectorSize : Nat := 128
def NumDirect : Nat := 28
def NumIndirect : Nat := 31

/-- Modelled from the spec: `sectorCount = ceil(byteLength / S)`; the
`divRoundUp` helper lives in sysdep.h, which is not among the sources.
All callers in the claims pass a non-negative size. -/
def divRoundUp (n s : Int) : Int :=
  n / s + (if 0 < n % s then 1 else 0)

/-! ## PersistentBitmap

Modelled from the spec (§4.1 SectorBitmap): pbitmap.cc / bitmap.cc are
not among the sources.  `FindAndSet` scans for the lowest-indexed clear
bit, sets it and returns its index, or returns -1 when the bitmap is
full; `Clear` on an already-clear bit is an assertion-level fatal error
(double free), modelled as `none`. -/

structure PersistentBitmap where
  bits : List Bool
  deriving Repr, DecidableEq

def findClear : List Bool → Option Nat
  | [] => none
  | true :: l => (findClear l).map (· + 1)
  | false :: _ => some 0

def PersistentBitmap.NumClear (bm : PersistentBitmap) : Nat :=
  bm.bits.count false

def PersistentBitmap.FindAndSet (bm : PersistentBitmap) : Int × PersistentBitmap :=
  match findClear bm.bits with
  | none => (-1, bm)
  | some i => ((i : Int), ⟨bm.bits.set i true⟩)

def PersistentBitmap.Test (bm : PersistentBitmap) (s : Int) : Bool :=
  bm.bits.getD s.toNat false

def PersistentBitmap.Clear (bm : PersistentBitmap) (s : Int) : Option PersistentBitmap :=
  if bm.Test s then some ⟨bm.bits.set s.toNat false⟩ else none

/-! ## On-disk sectors

A raw sector either was never written, holds an indirect-pointer block
(`SingleIndirectPointer` / `DoubleIndirectPointer` share the same
layout: one count plus `NumIndirect` ints, filehdr.h), or holds a
serialized `FileHeader`.  Reading a never-written sector yields the
all-zero pattern; the concrete scenarios below fix the initial disk
contents explicitly. -/

structure Block where
  numsSector : Int
  entries : List Int
  deriving Repr, DecidableEq

structure FileHeader where
  numBytes : Int
  numSectors : Int
  dataSectors : List Int
  SingleIndirectSector : Int
  DoubleIndirectSector : Int
  deriving Repr, DecidableEq

inductive Sector where
  | raw : Sector
  | blk : Block → Sector
  | hdr : FileHeader → Sector
  deriving Repr, DecidableEq

def zeroBlock : Block := ⟨0, List.replicate NumIndirect 0⟩

def fetchBlk (disk : Int → Sector) (s : Int) : Block :=
  match disk s with
  | Sector.blk b => b
  | _ => zeroBlock

def zeroHdr : FileHeader := ⟨0, 0, List.replicate NumDirect 0, 0, 0⟩

def fetchHdr (disk : Int → Sector) (s : Int) : FileHeader :=
  match disk s with
  | Sector.hdr h => h
  | _ => zeroHdr

def updateF {α : Type} (f : Int → α) (k : Int) (v : α) : Int → α :=
  fun x => if x = k then v else f x

/-- Garbage contents of the freshly `new`-ed objects: the header's
`dataSectors` array, each fresh `SingleIndirectPointer`'s `dataSectors`
array, and the fresh `DoubleIndirectPointer`'s `pointers` array are all
uninitialized in the C++; theorems either quantify over this parameter
or fix it explicitly in a concrete scenario. -/
structure Junk where
  hdrData : List Int
  single : List Int
  double : List Int

def jk0 : Junk := ⟨List.replicate NumDirect 0, List.replicate NumIndirect 0, List.replicate NumIndirect 0⟩

/-- Array slots 0..vals.length-1 were assigned, the tail keeps its
garbage initial contents. -/
def padJunk (junk vals : List Int) : List Int :=
  vals ++ junk.drop vals.length

/-- State threaded through FileHeader::Allocate: the free map, the raw
disk, the ordered log of sectors passed to WriteSector, and the ordered
log of the data sectors claimed so far (the "k-th data sector" of the
spec). -/
structure HdrSt where
  bm : PersistentBitmap
  disk : Int → Sector
  log : List Int
  dataLog : List Int

/-- One `for`-loop of `t` FindAndSet claims with
`ASSERT(... >= 0)` after each claim (filehdr.cc lines 55-61, 88-96,
118-126): returns the claimed sectors in claim order, or `none` when a
claim fails its assertion. -/
def claimLoop : PersistentBitmap → Nat → Option (PersistentBitmap × List Int)
  | bm, 0 => some (bm, [])
  | bm, t+1 =>
    match bm.FindAndSet with
    | (s, bm1) =>
      if s < 0 then none
      else
        match claimLoop bm1 t with
        | none => none
        | some (bm2, l) => some (bm2, s :: l)

/-- FileHeader::AllocateSingleIndirect (filehdr.cc 82-104).  The block's
own sector is claimed without an assertion; the fill loop runs
`min NumIndirect (numSectors - NumDirect)` iterations; the block is
written back unconditionally, and the function reports FALSE exactly
when the block filled to capacity. -/
def AllocateSingleIndirect (n : Int) (jk : Junk) (st : HdrSt) : Option (Bool × Int × HdrSt) :=
  match st.bm.FindAndSet with
  | (sis, bm1) =>
    let t := min NumIndirect (n - NumDirect).toNat
    match claimLoop bm1 t with
    | none => none
    | some (bm2, claimed) =>
      let blk : Block := ⟨(t : Int), padJunk jk.single claimed⟩
      let st' : HdrSt :=
        ⟨bm2, updateF st.disk sis (Sector.blk blk), st.log ++ [sis], st.dataLog ++ claimed⟩
      if t = NumIndirect then some (false, sis, st') else some (true, sis, st')

/-- The while-loop of FileHeader::AllocateDoubleIndirect (filehdr.cc
113-133).  Each iteration claims a sector for a nested single-indirect
block into `pointers[numsSector]`, fills it, advances
`sector_counter += NumIndirect` and `numsSector++`, returns FALSE when
`numsSector >= NumIndirect`, and otherwise writes the nested block to
`pointers[numsSector]` — the *incremented* index, i.e. a still
uninitialized slot (the write lands at the junk value of that slot, not
at the sector just claimed).  `numsSector` grows by one every iteration
and the loop returns once it reaches `NumIndirect`, so a fuel of
`NumIndirect + 1` can never run out. -/
def doubleLoop (n : Int) (jk : Junk) :
    Nat → Int → Nat → List Int → HdrSt → Option (Bool × Nat × List Int × HdrSt)
  | 0, _, _, _, _ => none
  | fuel+1, sc, m, ptrs, st =>
    if sc ≤ n then
      match st.bm.FindAndSet with
      | (p, bm1) =>
        let ptrs1 := ptrs.set m p
        let t := min NumIndirect (n - sc).toNat
        match claimLoop bm1 t with
        | none => none
        | some (bm2, claimed) =>
          let blk : Block := ⟨(t : Int), padJunk jk.single claimed⟩
          let m1 := m + 1
          if NumIndirect ≤ m1 then
            some (false, m1, ptrs1, ⟨bm2, st.disk, st.log, st.dataLog ++ claimed⟩)
          else
            let tgt := ptrs1.getD m1 0
            doubleLoop n jk fuel (sc + (NumIndirect : Int)) m1 ptrs1
              ⟨bm2, updateF st.disk tgt (Sector.blk blk), st.log ++ [tgt], st.dataLog ++ claimed⟩
    else some (true, m, ptrs, st)

/-- FileHeader::AllocateDoubleIndirect (filehdr.cc 106-138). -/
def AllocateDoubleIndirect (n : Int) (jk : Junk) (st : HdrSt) : Option (Bool × Int × HdrSt) :=
  match st.bm.FindAndSet with
  | (dis, bm1) =>
    match doubleLoop n jk (NumIndirect + 1) ((NumIndirect : Int) + (NumDirect : Int)) 0 jk.double
        ⟨bm1, st.disk, st.log, st.dataLog⟩ with
    | none => none
    | some (false, _, _, st1) => some (false, dis, st1)
    | some (true, m, ptrs, st1) =>
      let blk : Block := ⟨(m : Int), ptrs⟩
      some (true, dis, ⟨st1.bm, updateF st1.disk dis (Sector.blk blk), st1.log ++ [dis], st1.dataLog⟩)

/-- FileHeader::Allocate (filehdr.cc 43-80).  Sets numBytes/numSectors,
initializes both indirect pointers to -1, pre-checks
`NumClear() < numSectors`, claims up to NumDirect direct sectors, and
escalates to the single- then double-indirect paths.  (`rested_size` in
the source is computed but never used.) -/
def Allocate (jk : Junk) (st : HdrSt) (fileSize : Int) : Option (Bool × FileHeader × HdrSt) :=
  let n := divRoundUp fileSize (SectorSize : Int)
  if (st.bm.NumClear : Int) < n then
    some (false, ⟨fileSize, n, jk.hdrData, -1, -1⟩, st)
  else
    let t := min NumDirect n.toNat
    match claimLoop st.bm t with
    | none => none
    | some (bm1, claimed) =>
      let ds := padJunk jk.hdrData claimed
      let st1 : HdrSt := ⟨bm1, st.disk, st.log, st.dataLog ++ claimed⟩
      if (t : Int) = n then some (true, ⟨fileSize, n, ds, -1, -1⟩, st1)
      else
        match AllocateSingleIndirect n jk st1 with
        | none => none
        | some (true, sis, st2) => some (true, ⟨fileSize, n, ds, sis, -1⟩, st2)
        | some (false, sis, st2) =>
          match AllocateDoubleIndirect n jk st2 with
          | none => none
          | some (res, dis, st3) => some (res, ⟨fileSize, n, ds, sis, dis⟩, st3)

/-- FileHeader::ByteToSector (filehdr.cc 224-256): pure translation of a
byte offset to the disk sector holding it, reading the indirect blocks
from the disk; no allocator side effects. -/
def ByteToSector (hdr : FileHeader) (disk : Int → Sector) (offset : Int) : Int :=
  let offset_sector := offset / (SectorSize : Int)
  if offset_sector < (NumDirect : Int) then
    hdr.dataSectors.getD offset_sector.toNat 0
  else if offset_sector < (NumIndirect : Int) + (NumDirect : Int) then
    (fetchBlk disk hdr.SingleIndirectSector).entries.getD (offset_sector - (NumDirect : Int)).toNat 0
  else
    let rel := offset_sector - (NumDirect : Int) - (NumIndirect : Int)
    let dbl := fetchBlk disk hdr.DoubleIndirectSector
    let idx := dbl.entries.getD (rel / (NumIndirect : Int)).toNat 0
    (fetchBlk disk idx).entries.getD (rel % (NumIndirect : Int)).toNat 0

/-- Clear a list of sectors in order, each with
`ASSERT(freeMap->Test(...))` first (fatal, `none`, when the bit is
already clear). -/
def clearList : PersistentBitmap → List Int → Option PersistentBitmap
  | bm, [] => some bm
  | bm, s :: rest =>
    match bm.Clear s with
    | none => none
    | some bm1 => clearList bm1 rest

/-- Nested part of FileHeader::Deallocate: for each recorded nested
single-indirect block sector (processed in the source's descending
order), clear its valid data entries (descending) and then the block's
own sector. -/
def clearNested (disk : Int → Sector) : PersistentBitmap → List Int → Option PersistentBitmap
  | bm, [] => some bm
  | bm, s :: rest =>
    let blk := fetchBlk disk s
    match clearList bm (blk.entries.take blk.numsSector.toNat).reverse with
    | none => none
    | some bm1 =>
      match bm1.Clear s with
      | none => none
      | some bm2 => clearNested disk bm2 rest

/-- FileHeader::Deallocate (filehdr.cc 146-188): clear the direct data
sectors, then the single-indirect block's recorded entries and its own
sector, then, via the double-indirect block read back from disk, each
nested single-indirect block's recorded entries and sectors.  Every
clear asserts the bit was set.  (The in-memory resets of the two
pointer fields to -1 have no observable effect here.) -/
def Deallocate (hdr : FileHeader) (disk : Int → Sector) (bm : PersistentBitmap) :
    Option PersistentBitmap :=
  match clearList bm (hdr.dataSectors.take (min hdr.numSectors.toNat NumDirect)) with
  | none => none
  | some bm1 =>
    let afterSingle :=
      if hdr.SingleIndirectSector = -1 then some bm1
      else
        let blk := fetchBlk disk hdr.SingleIndirectSector
        match clearList bm1 (blk.entries.take blk.numsSector.toNat).reverse with
        | none => none
        | some bm2 => bm2.Clear hdr.SingleIndirectSector
    match afterSingle with
    | none => none
    | some bm3 =>
      if hdr.DoubleIndirectSector = -1 then some bm3
      else
        let dbl := fetchBlk disk hdr.DoubleIndirectSector
        match clearNested disk bm3 (dbl.entries.take dbl.numsSector.toNat).reverse with
        | none => none
        | some bm4 => bm4.Clear hdr.DoubleIndirectSector

/-! ### Concrete scenario: a 64-sector all-free disk -/

def bm64 : PersistentBitmap := ⟨List.replicate 64 false⟩

def stH64 : HdrSt := ⟨bm64, fun _ => Sector.raw, [], []⟩

/-! ### Lemmas about the bitmap and the claim loops -/

theorem findClear_none_iff (l : List Bool) : findClear l = none ↔ l.count false = 0 := by
  induction l with
  | nil => simp [findClear]
  | cons b l ih =>
    cases b <;> simp [findClear, List.count_cons, ih]

theorem findClear_getD (l : List Bool) (i : Nat) (h : findClear l = some i) :
    l.getD i true = false := by
  induction l generalizing i with
  | nil => simp [findClear] at h
  | cons b l ih =>
    cases b with
    | false => simp [findClear] at h; simp [← h]
    | true =>
      simp [findClear] at h
      obtain ⟨j, hj, rfl⟩ := h
      rw [List.getD_cons_succ]
      exact ih j hj

theorem count_set_true (l : List Bool) (i : Nat) (h : l.getD i true = false) :
    (l.set i true).count false + 1 = l.count false := by
  induction l generalizing i with
  | nil => simp at h
  | cons b l ih =>
    cases i with
    | zero =>
      simp at h
      subst h
      simp [List.count_cons]
    | succ j =>
      rw [List.getD_cons_succ] at h
      have := ih j h
      cases b <;> simp [List.count_cons, List.set] <;> omega

theorem fas_empty (bm : PersistentBitmap) (h : bm.NumClear = 0) :
    bm.FindAndSet = (-1, bm) := by
  have : findClear bm.bits = none := (findClear_none_iff bm.bits).mpr h
  simp [PersistentBitmap.FindAndSet, this]

theorem fas_neg (bm : PersistentBitmap) (s : Int) (bm1 : PersistentBitmap)
    (h : bm.FindAndSet = (s, bm1)) (hs : s < 0) : bm.NumClear = 0 := by
  by_contra hne
  have hpos : 0 < bm.bits.count false := Nat.pos_of_ne_zero hne
  have : findClear bm.bits ≠ none := by
    rw [Ne, findClear_none_iff]; omega
  obtain ⟨i, hi⟩ := Option.ne_none_iff_exists'.mp this
  rw [PersistentBitmap.FindAndSet, hi] at h
  have : s = (i : Int) := by
    have := congrArg Prod.fst h
    simpa using this.symm
  omega

theorem fas_decr (bm : PersistentBitmap) (s : Int) (bm1 : PersistentBitmap)
    (h : bm.FindAndSet = (s, bm1)) (hs : 0 ≤ s) : bm1.NumClear + 1 = bm.NumClear := by
  rw [PersistentBitmap.FindAndSet] at h
  cases hfc : findClear bm.bits with
  | none =>
    rw [hfc] at h
    have : s = -1 := by have := congrArg Prod.fst h; simpa using this.symm
    omega
  | some i =>
    rw [hfc] at h
    have hbm : bm1 = ⟨bm.bits.set i true⟩ := by
      have := congrArg Prod.snd h; simpa using this.symm
    have hget := findClear_getD bm.bits i hfc
    rw [hbm]
    exact count_set_true bm.bits i hget

theorem fas_pos (bm : PersistentBitmap) (s : Int) (bm1 : PersistentBitmap)
    (h : bm.FindAndSet = (s, bm1)) (hpos : 0 < bm.NumClear) :
    0 ≤ s ∧ bm1.NumClear + 1 = bm.NumClear := by
  have hs : 0 ≤ s := by
    by_contra hneg
    have := fas_neg bm s bm1 h (by omega)
    omega
  exact ⟨hs, fas_decr bm s bm1 h hs⟩

theorem claimLoop_clear (t : Nat) : ∀ (bm bm' : PersistentBitmap) (l : List Int),
    claimLoop bm t = some (bm', l) → bm'.NumClear + t = bm.NumClear ∧ l.length = t := by
  induction t with
  | zero =>
    intro bm bm' l h
    simp [claimLoop] at h
    simp [h.1, h.2]
  | succ t ih =>
    intro bm bm' l h
    rw [claimLoop] at h
    rcases hfs : bm.FindAndSet with ⟨s, bm1⟩
    rw [hfs] at h
    by_cases hs : s < 0
    · simp [hs] at h
    · simp [hs] at h
      cases hcl : claimLoop bm1 t with
      | none => rw [hcl] at h; simp at h
      | some p =>
        rw [hcl] at h
        obtain ⟨bm2, l2⟩ := p
        simp at h
        obtain ⟨h1, h2⟩ := h
        obtain ⟨ha, hb⟩ := ih bm1 bm2 l2 hcl
        have hd := fas_decr bm s bm1 hfs (by omega)
        subst h1
        subst h2
        constructor
        · omega
        · simp [hb]

theorem claimLoop_pos (t : Nat) (bm bm' : PersistentBitmap) (l : List Int)
    (h : claimLoop bm (t + 1) = some (bm', l)) : 0 < bm.NumClear := by
  by_contra hz
  have h0 : bm.NumClear = 0 := by omega
  rw [claimLoop, fas_empty bm h0] at h
  simp at h

theorem claimLoop_pos' (t : Nat) (bm bm' : PersistentBitmap) (l : List Int)
    (ht : 0 < t) (h : claimLoop bm t = some (bm', l)) : 0 < bm.NumClear := by
  cases t with
  | zero => omega
  | succ k => exact claimLoop_pos k bm bm' l h

theorem fas_neg' (bm : PersistentBitmap) (s : Int) (bm1 : PersistentBitmap)
    (h : bm.FindAndSet = (s, bm1)) (hs : s < 0) : bm.NumClear = 0 ∧ bm1 = bm := by
  rcases hfc : findClear bm.bits with _ | i
  · rw [PersistentBitmap.FindAndSet, hfc] at h
    refine ⟨(findClear_none_iff bm.bits).mp hfc, ?_⟩
    have := congrArg Prod.snd h
    simpa using this.symm
  · rw [PersistentBitmap.FindAndSet, hfc] at h
    have : s = (i : Int) := by have := congrArg Prod.fst h; simpa using this.symm
    omega

/-- Invariants extracted from a returning AllocateSingleIndirect call:
the block's own sector comes from FindAndSet (unchecked), the fill loop
ran `min NumIndirect (numSectors - NumDirect)` claims, and the FALSE
result signals exactly that the block filled to capacity. -/
theorem allocSI_inv (n : Int) (jk : Junk) (st : HdrSt) (res : Bool) (sis : Int) (st2 : HdrSt)
    (h : AllocateSingleIndirect n jk st = some (res, sis, st2)) :
    ∃ bmA claimed, st.bm.FindAndSet = (sis, bmA) ∧
      claimLoop bmA (min NumIndirect (n - (NumDirect : Int)).toNat) = some (st2.bm, claimed) ∧
      (res = false ↔ min NumIndirect (n - (NumDirect : Int)).toNat = NumIndirect) ∧
      st2.log = st.log ++ [sis] ∧ st2.dataLog = st.dataLog ++ claimed := by
  simp only [AllocateSingleIndirect] at h
  rcases hfs : st.bm.FindAndSet with ⟨s, bmA⟩
  rw [hfs] at h
  split at h
  · simp at h
  · rename_i p bm2 claimed hcl
    split at h
    · rename_i hfull
      simp at h
      obtain ⟨hr, hsis, hst⟩ := h
      subst hr; subst hsis; subst hst
      refine ⟨bmA, claimed, rfl, ?_, iff_of_true rfl hfull, by simp, by simp⟩
      simpa using hcl
    · rename_i hfull
      simp at h
      obtain ⟨hr, hsis, hst⟩ := h
      subst hr; subst hsis; subst hst
      refine ⟨bmA, claimed, rfl, ?_, iff_of_false (by simp) hfull, by simp, by simp⟩
      simpa using hcl

theorem doubleLoop_exit (n : Int) (jk : Junk) (fuel : Nat) (sc : Int) (m : Nat)
    (ptrs : List Int) (st : HdrSt) (hf : fuel ≠ 0) (hsc : ¬ sc ≤ n) :
    doubleLoop n jk fuel sc m ptrs st = some (true, m, ptrs, st) := by
  cases fuel with
  | zero => exact absurd rfl hf
  | succ k => rw [doubleLoop, if_neg hsc]

/-- One full iteration of the double-indirect while-loop followed by
loop exit: the nested block's contents land at `ptrs[m+1]`'s junk
value, not at the sector `p` just claimed for the block. -/
theorem doubleLoop_once (n : Int) (jk : Junk) (fuel : Nat) (sc : Int) (m : Nat) (ptrs : List Int)
    (st : HdrSt) (p : Int) (bm1 bm2 : PersistentBitmap) (claimed : List Int)
    (hf : 1 < fuel) (hsc : sc ≤ n)
    (hfs : st.bm.FindAndSet = (p, bm1))
    (hcl : claimLoop bm1 (min NumIndirect (n - sc).toNat) = some (bm2, claimed))
    (hm : ¬ NumIndirect ≤ m + 1)
    (hend : ¬ sc + (NumIndirect : Int) ≤ n) :
    doubleLoop n jk fuel sc m ptrs st =
      some (true, m + 1, ptrs.set m p,
        ⟨bm2,
         updateF st.disk ((ptrs.set m p).getD (m + 1) 0)
           (Sector.blk ⟨((min NumIndirect (n - sc).toNat : Nat) : Int), padJunk jk.single claimed⟩),
         st.log ++ [(ptrs.set m p).getD (m + 1) 0],
         st.dataLog ++ claimed⟩) := by
  cases fuel with
  | zero => omega
  | succ k =>
    rw [doubleLoop, if_pos hsc, hfs]
    simp only []
    rw [hcl]
    simp only [if_neg hm]
    rw [doubleLoop_exit n jk k _ _ _ _ (by omega) hend]

theorem doubleLoop_fail (n : Int) (jk : Junk) (fuel : Nat) (sc : Int) (m : Nat) (ptrs : List Int)
    (st : HdrSt) (p : Int) (bm1 : PersistentBitmap)
    (hf : fuel ≠ 0) (hsc : sc ≤ n)
    (hfs : st.bm.FindAndSet = (p, bm1))
    (hcl : claimLoop bm1 (min NumIndirect (n - sc).toNat) = none) :
    doubleLoop n jk fuel sc m ptrs st = none := by
  cases fuel with
  | zero => exact absurd rfl hf
  | succ k =>
    rw [doubleLoop, if_pos hsc, hfs]
    simp only []
    rw [hcl]

/-! ### Per-regime behaviour of a successful Allocate -/

theorem allocA (st : HdrSt) (fileSize : Int) (jk : Junk) (hdr : FileHeader) (st' : HdrSt)
    (h : Allocate jk st fileSize = some (true, hdr, st'))
    (hn : divRoundUp fileSize (SectorSize : Int) = 28) :
    hdr.SingleIndirectSector = -1 ∧ hdr.DoubleIndirectSector = -1 ∧
      st'.bm.NumClear + 28 = st.bm.NumClear := by
  simp only [Allocate] at h
  rw [hn] at h
  norm_num [NumDirect] at h
  by_cases hpre : st.bm.NumClear < 28
  · simp [hpre] at h
  · rw [if_neg hpre] at h
    cases hcl : claimLoop st.bm 28 with
    | none => rw [hcl] at h; simp at h
    | some p =>
      obtain ⟨bm1, claimed⟩ := p
      rw [hcl] at h
      simp at h
      obtain ⟨hh, hs⟩ := h
      obtain ⟨hc, -⟩ := claimLoop_clear 28 st.bm bm1 claimed hcl
      subst hh
      subst hs
      exact ⟨rfl, rfl, hc⟩

theorem allocB (st : HdrSt) (fileSize : Int) (jk : Junk) (hdr : FileHeader) (st' : HdrSt) (n : Int)
    (h : Allocate jk st fileSize = some (true, hdr, st'))
    (hn : divRoundUp fileSize (SectorSize : Int) = n) (hlo : 28 < n) (hhi : n < 59) :
    0 ≤ hdr.SingleIndirectSector ∧ hdr.DoubleIndirectSector = -1 ∧
      st'.bm.NumClear + n.toNat + 1 = st.bm.NumClear := by
  have htmin : min NumDirect n.toNat = 28 := by simp only [NumDirect]; omega
  have htSI : min NumIndirect (n - (NumDirect : Int)).toNat = (n - 28).toNat := by
    simp only [NumIndirect, NumDirect]; omega
  simp only [Allocate] at h
  rw [hn, htmin] at h
  split at h
  · simp at h
  · split at h
    · simp at h
    · rename_i p bm1 claimed hcl
      split at h
      · rename_i h28
        exact absurd h28 (by push_cast; omega)
      · split at h
        · simp at h
        · rename_i q sis st2 hsi
          simp at h
          obtain ⟨hh, hs⟩ := h
          subst hh; subst hs
          obtain ⟨bmA, claimed2, hfs, hcl2, hres, hlog, hdl⟩ :=
            allocSI_inv n jk _ true sis _ hsi
          rw [htSI] at hcl2
          have hsis : 0 ≤ sis := by
            by_contra hneg
            have hposA : 0 < bmA.NumClear :=
              claimLoop_pos' _ bmA _ claimed2 (by omega) hcl2
            obtain ⟨hz, he⟩ := fas_neg' _ sis bmA hfs (by omega)
            simp only at hz
            rw [he] at hposA
            simp only at hposA
            omega
          refine ⟨hsis, rfl, ?_⟩
          obtain ⟨ha, -⟩ := claimLoop_clear 28 st.bm bm1 claimed hcl
          obtain ⟨hb, -⟩ := claimLoop_clear _ bmA _ claimed2 hcl2
          have hd := fas_decr _ sis bmA hfs hsis
          simp only at hd
          omega
        · rename_i q sis st2 hsi
          obtain ⟨bmA, claimed2, hfs, hcl2, hres, hlog, hdl⟩ :=
            allocSI_inv n jk _ false sis st2 hsi
          rw [htSI] at hres
          have hcontra : (n - 28).toNat = NumIndirect := hres.mp rfl
          exact absurd hcontra (by simp only [NumIndirect]; omega)

set_option maxRecDepth 8000 in
theorem allocC (st : HdrSt) (fileSize : Int) (jk : Junk) (hdr : FileHeader) (st' : HdrSt)
    (h : Allocate jk st fileSize = some (true, hdr, st'))
    (hn : divRoundUp fileSize (SectorSize : Int) = 59) (hcap : 62 ≤ st.bm.NumClear) :
    0 ≤ hdr.SingleIndirectSector ∧ 0 ≤ hdr.DoubleIndirectSector ∧
      st'.bm.NumClear + 62 = st.bm.NumClear := by
  have htSI : min NumIndirect ((59 : Int) - (NumDirect : Int)).toNat = NumIndirect := by
    simp only [NumIndirect, NumDirect]; norm_num
  simp only [Allocate] at h
  rw [hn] at h
  norm_num [NumDirect] at h
  split at h
  · simp at h
  · split at h
    · simp at h
    · rename_i p bm1 claimed hcl
      split at h
      · simp at h
      · rename_i q sis st2 hsi
        obtain ⟨bmA, claimed2, hfs, hcl2, hres, -, -⟩ := allocSI_inv _ jk _ true sis st2 hsi
        exact absurd (hres.mpr htSI) (by simp)
      · rename_i q sis st2 hsi
        obtain ⟨bmA, claimed2, hfs, hcl2, hres, -, -⟩ := allocSI_inv _ jk _ false sis st2 hsi
        rw [htSI] at hcl2
        simp only [AllocateDoubleIndirect] at h
        rcases hfd : st2.bm.FindAndSet with ⟨dis, bmB⟩
        rw [hfd] at h
        simp only [] at h
        rcases hfp : bmB.FindAndSet with ⟨pp, bmC⟩
        have hcl0 : claimLoop bmC
            (min NumIndirect ((59 : Int) - ((NumIndirect : Int) + (NumDirect : Int))).toNat) =
            some (bmC, []) := by
          norm_num [NumIndirect, NumDirect, claimLoop]
        rw [doubleLoop_once 59 jk (NumIndirect + 1) ((NumIndirect : Int) + (NumDirect : Int)) 0
          jk.double _ pp bmC bmC [] (by simp only [NumIndirect]; omega)
          (by simp only [NumIndirect, NumDirect]; norm_num) hfp hcl0
          (by simp only [NumIndirect]; omega)
          (by simp only [NumIndirect, NumDirect]; norm_num)] at h
        simp at h
        obtain ⟨hh, hs⟩ := h
        subst hh; subst hs
        simp only at hfs ⊢
        obtain ⟨ha, -⟩ := claimLoop_clear _ st.bm bm1 claimed hcl
        obtain ⟨hsis, hda⟩ := fas_pos bm1 sis bmA hfs (by omega)
        obtain ⟨hb, -⟩ := claimLoop_clear _ bmA st2.bm claimed2 hcl2
        simp only [NumIndirect] at hb
        obtain ⟨hdis, hdb⟩ := fas_pos st2.bm dis bmB hfd (by omega)
        obtain ⟨hpp, hdc⟩ := fas_pos bmB pp bmC hfp (by omega)
        exact ⟨hsis, hdis, by omega⟩

set_option maxRecDepth 8000 in
theorem allocD (st : HdrSt) (fileSize : Int) (jk : Junk) (hdr : FileHeader) (st' : HdrSt)
    (h : Allocate jk st fileSize = some (true, hdr, st'))
    (hn : divRoundUp fileSize (SectorSize : Int) = 60) :
    0 ≤ hdr.SingleIndirectSector ∧ 0 ≤ hdr.DoubleIndirectSector ∧
      st'.bm.NumClear + 63 = st.bm.NumClear := by
  have htSI : min NumIndirect ((60 : Int) - (NumDirect : Int)).toNat = NumIndirect := by
    simp only [NumIndirect, NumDirect]; norm_num
  simp only [Allocate] at h
  rw [hn] at h
  norm_num [NumDirect] at h
  split at h
  · simp at h
  · split at h
    · simp at h
    · rename_i p bm1 claimed hcl
      split at h
      · simp at h
      · rename_i q sis st2 hsi
        obtain ⟨bmA, claimed2, hfs, hcl2, hres, -, -⟩ := allocSI_inv _ jk _ true sis st2 hsi
        exact absurd (hres.mpr htSI) (by simp)
      · rename_i q sis st2 hsi
        obtain ⟨bmA, claimed2, hfs, hcl2, hres, -, -⟩ := allocSI_inv _ jk _ false sis st2 hsi
        rw [htSI] at hcl2
        simp only [AllocateDoubleIndirect] at h
        rcases hfd : st2.bm.FindAndSet with ⟨dis, bmB⟩
        rw [hfd] at h
        simp only [] at h
        rcases hfp : bmB.FindAndSet with ⟨pp, bmC⟩
        cases hq : claimLoop bmC
            (min NumIndirect ((60 : Int) - ((NumIndirect : Int) + (NumDirect : Int))).toNat) with
        | none =>
          rw [doubleLoop_fail 60 jk (NumIndirect + 1) ((NumIndirect : Int) + (NumDirect : Int)) 0
            jk.double _ pp bmC (by simp only [NumIndirect]; omega)
            (by simp only [NumIndirect, NumDirect]; norm_num) hfp hq] at h
          simp at h
        | some r =>
          obtain ⟨bmD, claimed3⟩ := r
          rw [doubleLoop_once 60 jk (NumIndirect + 1) ((NumIndirect : Int) + (NumDirect : Int)) 0
            jk.double _ pp bmC bmD claimed3 (by simp only [NumIndirect]; omega)
            (by simp only [NumIndirect, NumDirect]; norm_num) hfp hq
            (by simp only [NumIndirect]; omega)
            (by simp only [NumIndirect, NumDirect]; norm_num)] at h
          simp at h
          obtain ⟨hh, hs⟩ := h
          subst hh; subst hs
          simp only at hfs ⊢
          obtain ⟨ha, -⟩ := claimLoop_clear _ st.bm bm1 claimed hcl
          obtain ⟨hb, -⟩ := claimLoop_clear _ bmA st2.bm claimed2 hcl2
          simp only [NumIndirect] at hb
          have htq : min NumIndirect ((60 : Int) - ((NumIndirect : Int) + (NumDirect : Int))).toNat = 1 := by
            simp only [NumIndirect, NumDirect]; norm_num
          rw [htq] at hq
          obtain ⟨hc, -⟩ := claimLoop_clear _ bmC bmD claimed3 hq
          have hbmC : 0 < bmC.NumClear := claimLoop_pos' _ bmC bmD claimed3 (by omega) hq
          have hsis : 0 ≤ sis := by
            by_contra hneg
            obtain ⟨hz, he⟩ := fas_neg' bm1 sis bmA hfs (by omega)
            have : 0 < bmA.NumClear :=
              claimLoop_pos' _ bmA st2.bm claimed2 (by simp only [NumIndirect]; omega) hcl2
            rw [he] at this
            omega
          have hpp : 0 ≤ pp := by
            by_contra hneg
            obtain ⟨hz, he⟩ := fas_neg' bmB pp bmC hfp (by omega)
            rw [he] at hbmC
            omega
          have hdcp := fas_decr bmB pp bmC hfp hpp
          have hdis : 0 ≤ dis := by
            by_contra hneg
            obtain ⟨hz, he⟩ := fas_neg' st2.bm dis bmB hfd (by omega)
            rw [he] at hdcp
            omega
          have hdbp := fas_decr st2.bm dis bmB hfd hdis
          have hdap := fas_decr bm1 sis bmA hfs hsis
          exact ⟨hsis, hdis, by omega⟩

/-! ### Claims about FileHeader::Allocate / ByteToSector / Deallocate -/

/-- C1.  CODE BUG, exhibited at the failing input: allocating
60 = D + I + 1 data sectors (fileSize 7680) on an all-free 64-sector
bitmap over a zeroed disk succeeds, and the 59th data sector is claimed
as sector 62; but ByteToSector(59 * 128) returns 0, because
AllocateDoubleIndirect wrote the nested single-indirect block's
contents to `pointers[numsSector]` *after* incrementing `numsSector`
(an uninitialized slot), so the sector recorded at outer index 0 was
never written and the translation reads stale disk contents instead of
the claimed 59th data sector.  (For k < D + I — the direct and
single-indirect ranges — the translation does return the k-th claimed
sector at this input.) -/
theorem c1_byteToSector_eval :
    ((Allocate jk0 stH64 7680).map fun r =>
        (r.1, ByteToSector r.2.1 r.2.2.disk (59 * 128), r.2.2.dataLog.getD 59 0)) =
      some (true, 0, 62) ∧
    ((Allocate jk0 stH64 7680).map fun r =>
        (List.range 59).all fun k =>
          ByteToSector r.2.1 r.2.2.disk ((k : Int) * 128) == r.2.2.dataLog.getD k 0) =
      some true ∧
    (0 : Int) ≠ 62 := by
  exact ⟨rfl, rfl, by decide⟩

/-- C2.  CODE BUG, exhibited at the failing input: a bitmap with
exactly 29 clear sectors and fileSize 3712 (29 sectors) passes the
step-2 pre-check (`NumClear() = 29 ≥ 29 = numSectors`), yet the run
aborts on a fatal assertion (`none`): the single-indirect block's own
sector consumes one of the 29 free sectors, so the 29th data-sector
claim returns -1 and `ASSERT(... >= 0)` fires.  The pre-check does not
count the indirect blocks' own sectors, contradicting the code's
comment "since we checked that there was enough free space, we expect
this to succeed". -/
def bmTight : PersistentBitmap := ⟨List.replicate 35 true ++ List.replicate 29 false⟩

theorem c2_precheck_insufficient :
    bmTight.NumClear = 29 ∧
    divRoundUp 3712 (SectorSize : Int) = 29 ∧
    ¬ ((bmTight.NumClear : Int) < divRoundUp 3712 (SectorSize : Int)) ∧
    Allocate jk0 ⟨bmTight, fun _ => Sector.raw, [], []⟩ 3712 = none := by
  exact ⟨rfl, rfl, by decide, rfl⟩

/-- C3 counterexample.  The claim says `doubleIndirectPointer` stays
"none" for D < sectorCount ≤ D + I, but at sectorCount = D + I = 59
(fileSize 7552) a successful allocate on an all-free 64-sector bitmap
leaves DoubleIndirectSector = 60 ≠ -1: AllocateSingleIndirect reports
failure whenever the block fills to capacity, even though its I entries
already cover sectorCount, so the double-indirect path runs anyway. -/
theorem c3_counterexample :
    ((Allocate jk0 stH64 7552).map fun r => (r.1, r.2.1.DoubleIndirectSector)) =
      some (true, 60) ∧ ¬ ((60 : Int) = -1) := by
  exact ⟨rfl, by decide⟩

/-- C3 amended.  For a successful allocate: at sectorCount = D = 28 no
indirect block is allocated (both pointers stay -1 and exactly the 28
data sectors are claimed); for D < sectorCount < D + I exactly one
single-indirect block is allocated (sectorCount + 1 sectors claimed)
and the double pointer stays -1; at sectorCount = D + I = 59 (given at
least 62 free sectors) the filled single-indirect block *and* a
double-indirect block with one empty nested single-indirect block are
allocated (sectorCount + 3 claims); at sectorCount = D + I + 1 = 60
exactly one double-indirect block with exactly one nested
single-indirect block is allocated (sectorCount + 3 claims). -/
theorem c3_indirect_scheme (st : HdrSt) (fileSize : Int) (jk : Junk)
    (hdr : FileHeader) (st' : HdrSt)
    (h : Allocate jk st fileSize = some (true, hdr, st')) :
    (divRoundUp fileSize (SectorSize : Int) = 28 →
      hdr.SingleIndirectSector = -1 ∧ hdr.DoubleIndirectSector = -1 ∧
        st'.bm.NumClear + 28 = st.bm.NumClear) ∧
    (∀ n : Int, divRoundUp fileSize (SectorSize : Int) = n → 28 < n → n < 59 →
      0 ≤ hdr.SingleIndirectSector ∧ hdr.DoubleIndirectSector = -1 ∧
        st'.bm.NumClear + n.toNat + 1 = st.bm.NumClear) ∧
    (divRoundUp fileSize (SectorSize : Int) = 59 → 62 ≤ st.bm.NumClear →
      0 ≤ hdr.SingleIndirectSector ∧ 0 ≤ hdr.DoubleIndirectSector ∧
        st'.bm.NumClear + 62 = st.bm.NumClear) ∧
    (divRoundUp fileSize (SectorSize : Int) = 60 →
      0 ≤ hdr.SingleIndirectSector ∧ 0 ≤ hdr.DoubleIndirectSector ∧
        st'.bm.NumClear + 63 = st.bm.NumClear) :=
  ⟨fun hn => allocA st fileSize jk hdr st' h hn,
   fun n hn h1 h2 => allocB st fileSize jk hdr st' n h hn h1 h2,
   fun hn hcap => allocC st fileSize jk hdr st' h hn hcap,
   fun hn => allocD st fileSize jk hdr st' h hn⟩

def intRange (n : Nat) : List Int := (List.range n).map Int.ofNat

def hdr28 : FileHeader := ⟨3584, 28, intRange 28, -1, -1⟩

def stAfter28 : HdrSt :=
  ⟨⟨List.replicate 28 true ++ List.replicate 36 false⟩, fun _ => Sector.raw, [], intRange 28⟩

/-- C3 witness: instantiating the amended boundary theorem at
fileSize = 28 * 128 = 3584 on the all-free 64-sector bitmap. -/
theorem c3_indirect_scheme_witness :
    divRoundUp 3584 (SectorSize : Int) = 28 ∧
      (hdr28.SingleIndirectSector = -1 ∧ hdr28.DoubleIndirectSector = -1 ∧
        stAfter28.bm.NumClear + 28 = stH64.bm.NumClear) :=
  ⟨rfl, (c3_indirect_scheme stH64 3584 jk0 hdr28 stAfter28 rfl).1 rfl⟩

/-- C4.  CODE BUG, exhibited at the failing input: on the all-free
64-sector bitmap (NumClear 64) and zeroed disk, Allocate of fileSize
7680 (60 = D + I + 1 sectors) followed immediately by Deallocate leaves
NumClear at 63, not 64: the data sector claimed in the double-indirect
phase leaks, because Deallocate reads the nested single-indirect block
back from the sector recorded in the double-indirect block, which
Allocate never wrote (it wrote the block to the junk value of the next
pointer slot instead), finds a stale zero entry count there, and so
never clears that data sector. -/
theorem c4_alloc_dealloc_leak :
    bm64.NumClear = 64 ∧
    ((Allocate jk0 stH64 7680).bind fun r =>
        if r.1 then (Deallocate r.2.1 r.2.2.disk r.2.2.bm).map (fun b => b.NumClear)
        else none) = some 63 ∧
    (63 : Nat) ≠ 64 := by
  exact ⟨rfl, rfl, by decide⟩

/-! ## Directory

Modelled from the spec (§4.3): directory.cc is not among the sources.
A fixed-capacity table of (inUse, name, headerSector, kind) entries
(NumDirEntries = 64 in the non-stub filesys.cc); `Find` is a linear
scan of the in-use entries for an exact name match, `Add` fails if the
name is present or no slot is free and otherwise occupies the first
free slot, `Remove` marks the slot free.  Names are bounded
(FileNameMaxLen); the claims only involve short names, for which the
bounded comparison coincides with string equality. -/

structure DirEntry where
  inUse : Bool
  name : String
  sector : Int
  isDir : Bool
  deriving Repr, DecidableEq

structure Directory where
  table : List DirEntry
  deriving Repr, DecidableEq

def Directory.Find (d : Directory) (nm : String) : Int :=
  match d.table.find? (fun e => e.inUse && e.name == nm) with
  | some e => e.sector
  | none => -1

def Directory.Add (d : Directory) (nm : String) (sec : Int) (isdir : Bool) : Bool × Directory :=
  if d.Find nm ≠ -1 then (false, d)
  else
    match d.table.findIdx? (fun e => !e.inUse) with
    | some i => (true, ⟨d.table.set i ⟨true, nm, sec, isdir⟩⟩)
    | none => (false, d)

def Directory.Remove (d : Directory) (nm : String) : Bool × Directory :=
  match d.table.findIdx? (fun e => e.inUse && e.name == nm) with
  | some i =>
    let e := d.table.getD i ⟨false, "", -1, false⟩
    (true, ⟨d.table.set i ⟨false, e.name, e.sector, e.isDir⟩⟩)
  | none => (false, d)

def emptyEntry : DirEntry := ⟨false, "", -1, false⟩

def emptyDir : Directory := ⟨List.replicate 64 emptyEntry⟩

/-! ## FileSystem façade (filesys.cc, FILESYS variant)

State: the raw sector store (headers and indirect blocks written with
WriteSector), the contents of each directory file keyed by its header
sector (reads and writes of a directory go through an OpenFile over
that header; the claims never alias a directory file with a raw
sector), the on-disk bitmap file, and the process-wide current
directory cursor (currentDirectoryFile's header sector and the
in-memory Directory object).  Sector 1 (DirectorySector) holds the root
directory. -/

def DirectorySector : Int := 1

structure FsSt where
  raw : Int → Sector
  dirs : Int → Directory
  bmDisk : PersistentBitmap
  curSec : Int
  curDir : Directory

/-- Disk-write events, in program order: a raw WriteSector (headers,
indirect blocks), a directory file flushed to disk
(Directory::WriteBack through the OpenFile at the given header sector),
and the bitmap file flushed (PersistentBitmap::WriteBack). -/
inductive Ev where
  | ws : Int → Ev
  | flushDir : Int → Ev
  | flushBM : Ev
  deriving Repr, DecidableEq

/-- Tokenizer with strtok semantics: split on '/', never emitting an
empty component; `acc` holds the current component's characters in
reverse. -/
def splitAux : List Char → List Char → List String
  | [], acc => if acc.isEmpty then [] else [String.mk acc.reverse]
  | c :: rest, acc =>
    if c = '/' then
      if acc.isEmpty then splitAux rest [] else String.mk acc.reverse :: splitAux rest []
    else splitAux rest (c :: acc)

/-- FileSystem::splitPath (filesys.cc 348-361): strtok on "/", which
skips empty components; the source copies at most 30 bytes of the path
(the claims only use shorter paths). -/
def splitPath (path : String) : List String :=
  splitAux (path.data.take 30) []

/-- FileSystem::changeToRightDir (filesys.cc 628-659): for each
component, look it up in the current directory (returning false if
absent, with the cursor left where it is), write the current directory
back to disk, and reopen the cursor at the found sector. -/
def changeToRightDir (st : FsSt) : List String → Bool × FsSt × List Ev
  | [] => (true, st, [])
  | c :: rest =>
    let sec := st.curDir.Find c
    if sec = -1 then (false, st, [])
    else
      let dirs1 := updateF st.dirs st.curSec st.curDir
      let st1 : FsSt := ⟨st.raw, dirs1, st.bmDisk, sec, dirs1 sec⟩
      let r := changeToRightDir st1 rest
      (r.1, r.2.1, Ev.flushDir st.curSec :: r.2.2)

/-- FileSystem::resetRootDir (filesys.cc 660-670): point the cursor
back at the root directory and fetch it. -/
def resetRootDir (st : FsSt) : FsSt :=
  ⟨st.raw, st.dirs, st.bmDisk, DirectorySector, st.dirs DirectorySector⟩

/-- FileSystem::Create (filesys.cc 392-449).  `none` models the fatal
`ASSERT(changeToRightDir(...) == TRUE)` (and a fatal assertion inside
Allocate).  On the success path the header is written to its sector,
then the directory, then the bitmap are flushed, in that order. -/
def Create (st : FsSt) (path : String) (size : Int) (jk : Junk) :
    Option (Bool × FsSt × List Ev) :=
  let parts := splitPath path
  let file_name := parts.getLastD ""
  match changeToRightDir st parts.dropLast with
  | (false, _, _) => none
  | (true, st1, tr1) =>
    let st2 : FsSt := ⟨st1.raw, st1.dirs, st1.bmDisk, st1.curSec, st1.dirs st1.curSec⟩
    if st2.curDir.Find file_name ≠ -1 then some (false, resetRootDir st2, tr1)
    else
      match st2.bmDisk.FindAndSet with
      | (sector, bm1) =>
        if sector = -1 then some (false, resetRootDir st2, tr1)
        else
          match st2.curDir.Add file_name sector false with
          | (false, _) => some (false, resetRootDir st2, tr1)
          | (true, dir1) =>
            match Allocate jk ⟨bm1, st2.raw, [], []⟩ size with
            | none => none
            | some (false, _, hst) =>
              some (false, resetRootDir ⟨hst.disk, st2.dirs, st2.bmDisk, st2.curSec, st2.curDir⟩,
                tr1 ++ hst.log.map Ev.ws)
            | some (true, hdr, hst) =>
              some (true,
                resetRootDir
                  ⟨updateF hst.disk sector (Sector.hdr hdr),
                   updateF st2.dirs st2.curSec dir1, hst.bm, st2.curSec, dir1⟩,
                tr1 ++ hst.log.map Ev.ws ++ [Ev.ws sector, Ev.flushDir st2.curSec, Ev.flushBM])

/-- FileSystem::Open (filesys.cc 461-479): resolve the path, look up
the *leaf* name, return an OpenFile over the found header sector (the
inner `none` is the NULL result), and reset the cursor. -/
def Open (st : FsSt) (path : String) : Option (Option Int × FsSt) :=
  let parts := splitPath path
  let file_name := parts.getLastD ""
  match changeToRightDir st parts.dropLast with
  | (false, _, _) => none
  | (true, st1, _) =>
    let st2 : FsSt := ⟨st1.raw, st1.dirs, st1.bmDisk, st1.curSec, st1.dirs st1.curSec⟩
    let sector := st2.curDir.Find file_name
    some ((if 0 ≤ sector then some sector else none), resetRootDir st2)

/-- FileSystem::Remove (filesys.cc 535-567).  Note two things the
source really does: the directory lookup and removal use the *whole
path string* `name`, not the split-out leaf `file_name` (which is
computed and then unused), and the not-found path returns FALSE
*without* resetRootDir, leaving the cursor wherever the walk moved it.
On success it deallocates the header's data, clears the header sector,
removes the entry, and flushes the bitmap then the directory. -/
def Remove (st : FsSt) (path : String) : Option (Bool × FsSt × List Ev) :=
  let parts := splitPath path
  match changeToRightDir st parts.dropLast with
  | (false, _, _) => none
  | (true, st1, tr1) =>
    let st2 : FsSt := ⟨st1.raw, st1.dirs, st1.bmDisk, st1.curSec, st1.dirs st1.curSec⟩
    let sector := st2.curDir.Find path
    if sector = -1 then some (false, st2, tr1)
    else
      let fileHdr := fetchHdr st2.raw sector
      match Deallocate fileHdr st2.raw st2.bmDisk with
      | none => none
      | some bm1 =>
        match bm1.Clear sector with
        | none => none
        | some bm2 =>
          let dir1 := (st2.curDir.Remove path).2
          some (true,
            resetRootDir ⟨st2.raw, updateF st2.dirs st2.curSec dir1, bm2, st2.curSec, dir1⟩,
            tr1 ++ [Ev.flushBM, Ev.flushDir st2.curSec])

/-! ## Open-file table (filesys.cc 481-519)

`openedTable` is a `std::map<OpenFileId, OpenFile*>`, modelled as an
association list with at most one binding per key.  An OpenFile handle
is abstracted by its header sector; `none` is a NULL pointer.  The
actual byte transfer of OpenFile::Read/Write is the external OpenFile
collaborator, abstracted by the `ioRes` parameter; the Bool in the
result records whether that call was made at all. -/

def OpenTable := List (Int × Option Int)

def lookupTbl (tbl : OpenTable) (id : Int) : Option (Option Int) :=
  (List.find? (fun p => p.1 == id) tbl).map (fun p => p.2)

def eraseTbl (tbl : OpenTable) (id : Int) : OpenTable :=
  List.filter (fun p => p.1 != id) tbl

/-- The do-while of FileSystem::OpenAFile: draw identifiers from the
random stream until one is not in use.  A finite draw list models the
unbounded retry; `none` means the modelled stream ran out. -/
def pickId (tbl : OpenTable) : List Int → Option Int
  | [] => none
  | d :: rest => if (lookupTbl tbl d).isSome then pickId tbl rest else some d

/-- FileSystem::OpenAFile (filesys.cc 481-494): Open the path, draw a
collision-free identifier, and record the handle — whatever Open
returned, NULL included — under that identifier.  The identifier, never
-1, is returned unconditionally. -/
def OpenAFile (st : FsSt) (tbl : OpenTable) (draws : List Int) (path : String) :
    Option (Int × OpenTable × FsSt) :=
  match Open st path with
  | none => none
  | some (one_file, st') =>
    match pickId tbl draws with
    | none => none
    | some id => some (id, (id, one_file) :: eraseTbl tbl id, st')

/-- FileSystem::WriteAFile (filesys.cc 496-501). -/
def WriteAFile (tbl : OpenTable) (ioRes : Int) (id : Int) : Int × Bool :=
  if (lookupTbl tbl id).isSome then (ioRes, true) else (0, false)

/-- FileSystem::ReadAFile (filesys.cc 503-508). -/
def ReadAFile (tbl : OpenTable) (ioRes : Int) (id : Int) : Int × Bool :=
  if (lookupTbl tbl id).isSome then (ioRes, true) else (0, false)

/-- FileSystem::CloseAFile (filesys.cc 510-519). -/
def CloseAFile (tbl : OpenTable) (id : Int) : Int × OpenTable :=
  if (lookupTbl tbl id).isSome then (1, eraseTbl tbl id) else (0, tbl)

/-! ### Concrete filesystem states for the claims -/

/-- A directory whose first slot holds the given entry. -/
def dirWith (nm : String) (sec : Int) (isdir : Bool) : Directory :=
  ⟨⟨true, nm, sec, isdir⟩ :: List.replicate 63 emptyEntry⟩

/-- Root (sector 1) holds directory "a" at sector 5; directory "a"
holds file "f" at sector 9. -/
def stA : FsSt :=
  ⟨fun _ => Sector.raw,
   updateF (updateF (fun _ => emptyDir) DirectorySector (dirWith "a" 5 true)) 5
     (dirWith "f" 9 false),
   ⟨List.replicate 16 false⟩, DirectorySector, dirWith "a" 5 true⟩

/-- Root holds directory "a" at sector 5; directory "a" is empty. -/
def stG : FsSt :=
  ⟨fun _ => Sector.raw,
   updateF (updateF (fun _ => emptyDir) DirectorySector (dirWith "a" 5 true)) 5 emptyDir,
   ⟨List.replicate 16 false⟩, DirectorySector, dirWith "a" 5 true⟩

/-- A one-sector file whose header (at sector 5) points at data
sector 9. -/
def hdrF : FileHeader := ⟨100, 1, padJunk jk0.hdrData [9], -1, -1⟩

/-- Mark the listed sectors allocated in a 16-sector bitmap. -/
def bm16With (l : List Nat) : PersistentBitmap :=
  ⟨(List.range 16).map (fun i => l.contains i)⟩

/-- Root holds file "f" with header at sector 5 and data at sector 9;
the bitmap marks sectors 0, 1, 5, 9. -/
def stF : FsSt :=
  ⟨updateF (fun _ => Sector.raw) 5 (Sector.hdr hdrF),
   updateF (fun _ => emptyDir) DirectorySector (dirWith "f" 5 false),
   bm16With [0, 1, 5, 9], DirectorySector, dirWith "f" 5 false⟩

/-- An empty root directory. -/
def stE : FsSt :=
  ⟨fun _ => Sector.raw, fun _ => emptyDir, ⟨List.replicate 16 false⟩,
   DirectorySector, emptyDir⟩

/-! ### Claims about the FileSystem façade -/

/-- C5 counterexample.  The claim says a failing create writes no
sector, but Create of "/a/f" on a state where "/a/f" already exists
returns failure after the path walk has already written the root
directory file back to disk (trace `[flushDir 1]` is not empty); a
write also happens on the failing-data-allocation path via the
indirect blocks flushed inside Allocate. -/
theorem c5_counterexample :
    ((Create stA "/a/f" 100 jk0).map fun r => (r.1, r.2.2)) =
      some (false, [Ev.flushDir DirectorySector]) ∧
    [Ev.flushDir DirectorySector] ≠ ([] : List Ev) := by
  exact ⟨rfl, by decide⟩

/-- C6.  CODE BUG, exhibited at the failing input: Remove of "/a/x" on
a state where directory "a" exists but holds no "x" returns FALSE with
the current-directory cursor still pointing at sector 5 (directory
"a"), not at the root: the not-found early return in
FileSystem::Remove skips resetRootDir (MakeNewDir's failure returns
skip it as well), so the cursor is left at a non-root directory
between top-level calls. -/
theorem c6_cursor_not_reset :
    ((Remove stG "/a/x").map fun r => (r.1, r.2.1.curSec)) = some (false, 5) ∧
    (5 : Int) ≠ DirectorySector := by
  exact ⟨rfl, by decide⟩

/-- C7.  CODE BUG, exhibited at the failing input: root contains the
leaf "f" (Find "f" = 5 ≠ -1), yet Remove called with the path "/f"
returns FALSE — FileSystem::Remove passes the whole path string `name`
to Directory::Find and Directory::Remove instead of the split-out leaf
`file_name` (which it computes and never uses), so any path containing
a separator fails the lookup.  Called with the bare string "f", the
same state removes the file and flushes bitmap and directory. -/
theorem c7_remove_uses_full_path :
    ((Remove stF "/f").map fun r => r.1) = some false ∧
    (dirWith "f" 5 false).Find "f" = 5 ∧ ¬ ((5 : Int) = -1) ∧
    ((Remove stF "f").map fun r =>
        (r.1, r.2.1.curSec, r.2.1.bmDisk.NumClear, (r.2.1.dirs DirectorySector).Find "f", r.2.2)) =
      some (true, DirectorySector, 14, -1, [Ev.flushBM, Ev.flushDir DirectorySector]) := by
  exact ⟨rfl, rfl, by decide, rfl⟩

/-- C8.  CODE BUG, exhibited at the failing input: with root empty, the
path "/nodir/f" has an absent intermediate directory component, and
Create, Open and Remove all hit the fatal
`ASSERT(changeToRightDir(...) == TRUE)` (`none` = abort) instead of
returning the boolean/optional failure the claim requires. -/
theorem c8_intermediate_dir_fatal :
    Create stE "/nodir/f" 100 jk0 = none ∧
    Open stE "/nodir/f" = none ∧
    Remove stE "/nodir/f" = none := by
  exact ⟨rfl, rfl, rfl⟩

/-- C9.  CODE BUG, exhibited at the failing input: OpenAFile on a path
that resolves to no file ("ghost" in an empty root, so Open returns
NULL) does not return -1: it draws a fresh identifier (5 here), stores
the NULL handle in the open table under it, and returns it.  The
identifier-collision retry is real, but the not-found branch the claim
describes does not exist. -/
theorem c9_openAFile_no_minus_one :
    ((OpenAFile stE [] [5] "ghost").map fun r => (r.1, r.2.1)) =
      some (5, [((5 : Int), (none : Option Int))]) ∧
    (5 : Int) ≠ -1 := by
  exact ⟨rfl, by decide⟩

theorem lookup_eraseTbl (tbl : OpenTable) (id : Int) :
    lookupTbl (eraseTbl tbl id) id = none := by
  induction tbl with
  | nil => rfl
  | cons p rest ih =>
    by_cases hp : p.1 = id
    · rw [show eraseTbl (p :: rest) id = eraseTbl rest id by simp [eraseTbl, List.filter_cons, hp]]
      exact ih
    · rw [show eraseTbl (p :: rest) id = p :: eraseTbl rest id by simp [eraseTbl, List.filter_cons, hp]]
      have hb : (p.1 == id) = false := by simp [hp]
      rw [show lookupTbl (p :: eraseTbl rest id) id = lookupTbl (eraseTbl rest id) id by
        simp [lookupTbl, List.find?, hb]]
      exact ih

/-- C10.  For an identifier absent from the open table, ReadAFile and
WriteAFile return 0 without calling the handle's I/O, and CloseAFile
returns 0 leaving the table unchanged; for a present identifier,
CloseAFile removes it and returns 1, and a second CloseAFile with the
same identifier then returns 0. -/
theorem c10_open_table (tbl : OpenTable) (id : Int) (ioRes : Int) :
    (lookupTbl tbl id = none →
      ReadAFile tbl ioRes id = (0, false) ∧ WriteAFile tbl ioRes id = (0, false) ∧
        CloseAFile tbl id = (0, tbl)) ∧
    ((lookupTbl tbl id).isSome →
      CloseAFile tbl id = (1, eraseTbl tbl id) ∧
        CloseAFile (eraseTbl tbl id) id = (0, eraseTbl tbl id)) := by
  constructor
  · intro habs
    simp [ReadAFile, WriteAFile, CloseAFile, habs]
  · intro hpres
    refine ⟨by simp [CloseAFile, hpres], ?_⟩
    simp [CloseAFile, lookup_eraseTbl]

/-- C10 witness: the table holding only identifier 3; identifier 7 is
absent and returns 0 everywhere; closing 3 removes it and a second
close returns 0. -/
theorem c10_open_table_witness :
    (ReadAFile [((3 : Int), some (9 : Int))] 42 7 = (0, false) ∧
      WriteAFile [((3 : Int), some (9 : Int))] 42 7 = (0, false) ∧
      CloseAFile [((3 : Int), some (9 : Int))] 7 = (0, [((3 : Int), some (9 : Int))])) ∧
    (CloseAFile [((3 : Int), some (9 : Int))] 3 =
        (1, eraseTbl [((3 : Int), some (9 : Int))] 3) ∧
      CloseAFile (eraseTbl [((3 : Int), some (9 : Int))] 3) 3 =
        (0, eraseTbl [((3 : Int), some (9 : Int))] 3)) :=
  ⟨(c10_open_table [((3 : Int), some (9 : Int))] 7 42).1 rfl,
   (c10_open_table [((3 : Int), some (9 : Int))] 3 42).2 rfl⟩

end NachFS

namespace NachFS

theorem updateF_self {α : Type} (f : Int → α) (k : Int) : updateF f k (f k) = f := by
  funext x
  simp only [updateF]
  split
  · rename_i hx; rw [hx]
  · rfl

/-- The path walk never touches the raw disk or the bitmap file, and
when the in-memory cursor directory matches its on-disk contents the
directory write-backs it performs rewrite unchanged contents, so the
`dirs` map is preserved; its trace consists of directory flushes
only. -/
theorem walk_preserves (l : List String) : ∀ (st : FsSt) (ok : Bool) (st' : FsSt) (tr : List Ev),
    st.curDir = st.dirs st.curSec →
    changeToRightDir st l = (ok, st', tr) →
    st'.raw = st.raw ∧ st'.dirs = st.dirs ∧ st'.bmDisk = st.bmDisk ∧
      st'.curDir = st'.dirs st'.curSec ∧ ∀ e ∈ tr, ∃ s, e = Ev.flushDir s := by
  induction l with
  | nil =>
    intro st ok st' tr hcur h
    simp only [changeToRightDir, Prod.mk.injEq] at h
    obtain ⟨h1, h2, h3⟩ := h
    subst h2; subst h3
    exact ⟨rfl, rfl, rfl, hcur, by simp⟩
  | cons c rest ih =>
    intro st ok st' tr hcur h
    simp only [changeToRightDir] at h
    split at h
    · simp only [Prod.mk.injEq] at h
      obtain ⟨h1, h2, h3⟩ := h
      subst h2; subst h3
      exact ⟨rfl, rfl, rfl, hcur, by simp⟩
    · rename_i hsec
      rcases hw : changeToRightDir
          ⟨st.raw, updateF st.dirs st.curSec st.curDir, st.bmDisk, st.curDir.Find c,
           updateF st.dirs st.curSec st.curDir (st.curDir.Find c)⟩ rest with ⟨ok2, st2, tr2⟩
      rw [hw] at h
      simp only [Prod.mk.injEq] at h
      obtain ⟨h1, h2, h3⟩ := h
      subst h1; subst h2; subst h3
      have hdirs : updateF st.dirs st.curSec st.curDir = st.dirs := by
        rw [hcur, updateF_self]
      have hinv : (⟨st.raw, updateF st.dirs st.curSec st.curDir, st.bmDisk, st.curDir.Find c,
          updateF st.dirs st.curSec st.curDir (st.curDir.Find c)⟩ : FsSt).curDir =
          (⟨st.raw, updateF st.dirs st.curSec st.curDir, st.bmDisk, st.curDir.Find c,
          updateF st.dirs st.curSec st.curDir (st.curDir.Find c)⟩ : FsSt).dirs
          (⟨st.raw, updateF st.dirs st.curSec st.curDir, st.bmDisk, st.curDir.Find c,
          updateF st.dirs st.curSec st.curDir (st.curDir.Find c)⟩ : FsSt).curSec := rfl
      obtain ⟨ha, hb, hc, hd, he⟩ := ih _ ok2 st2 tr2 hinv hw
      refine ⟨ha, ?_, hc, hd, ?_⟩
      · rw [hb]; exact hdirs
      · intro e hme
        cases hme with
        | head => exact ⟨st.curSec, rfl⟩
        | tail _ hme2 => exact he e hme2
end NachFS

namespace NachFS

/-- C5 amended.  Assuming the cursor invariant (the in-memory current
directory matches its on-disk contents, which resetRootDir establishes
between top-level calls): whenever create returns failure, the on-disk
bitmap and the directory contents are unchanged and the bitmap file is
never flushed — the only writes are re-writes of walked directories
with unchanged content and indirect blocks written by a data
allocation that failed after its pre-check; whenever create succeeds,
the trace ends with the header write, the parent-directory flush, and
the bitmap flush, in exactly that order, with no earlier bitmap
flush. -/
theorem c5_create_all_or_nothing (st : FsSt) (path : String) (size : Int) (jk : Junk)
    (hcur : st.curDir = st.dirs st.curSec) :
    (∀ st' tr, Create st path size jk = some (false, st', tr) →
        st'.bmDisk = st.bmDisk ∧ st'.dirs = st.dirs ∧ ∀ e ∈ tr, e ≠ Ev.flushBM) ∧
    (∀ st' tr, Create st path size jk = some (true, st', tr) →
        ∃ pre sector parent, tr = pre ++ [Ev.ws sector, Ev.flushDir parent, Ev.flushBM] ∧
          ∀ e ∈ pre, e ≠ Ev.flushBM) := by
  rcases hw : changeToRightDir st (splitPath path).dropLast with ⟨ok, st1, tr1⟩
  cases ok with
  | false =>
    constructor
    · intro st' tr h
      simp only [Create, hw] at h
      simp at h
    · intro st' tr h
      simp only [Create, hw] at h
      simp at h
  | true =>
    obtain ⟨hraw, hdirs, hbm, hcur1, htr1⟩ := walk_preserves _ st true st1 tr1 hcur hw
    have htr1' : ∀ e ∈ tr1, e ≠ Ev.flushBM := by
      intro e he
      obtain ⟨s, rfl⟩ := htr1 e he
      simp
    constructor
    · intro st' tr h
      simp only [Create, hw] at h
      split at h
      · -- name already exists
        simp only [Option.some.injEq, Prod.mk.injEq] at h
        obtain ⟨-, h2, h3⟩ := h
        subst h2; subst h3
        exact ⟨hbm, by simpa using hdirs, htr1'⟩
      · rcases hfa : st1.bmDisk.FindAndSet with ⟨sector, bm1⟩
        rw [hfa] at h
        split at h
        · -- no free header sector
          simp only [Option.some.injEq, Prod.mk.injEq] at h
          obtain ⟨-, h2, h3⟩ := h
          subst h2; subst h3
          exact ⟨hbm, by simpa using hdirs, htr1'⟩
        · split at h
          · -- directory full
            simp only [Option.some.injEq, Prod.mk.injEq] at h
            obtain ⟨-, h2, h3⟩ := h
            subst h2; subst h3
            exact ⟨hbm, by simpa using hdirs, htr1'⟩
          · rename_i dpair dir1 hadd
            split at h
            · simp at h
            · -- allocation failed after the pre-check
              rename_i hal res hdr0 hst hallo
              simp only [Option.some.injEq, Prod.mk.injEq] at h
              obtain ⟨-, h2, h3⟩ := h
              subst h2; subst h3
              refine ⟨hbm, by simpa using hdirs, ?_⟩
              intro e he
              rcases List.mem_append.mp he with he1 | he2
              · exact htr1' e he1
              · obtain ⟨s, -, rfl⟩ := List.mem_map.mp he2
                simp
            · -- success result cannot be the false case
              simp at h
    · intro st' tr h
      simp only [Create, hw] at h
      split at h
      · simp at h
      · rcases hfa : st1.bmDisk.FindAndSet with ⟨sector, bm1⟩
        rw [hfa] at h
        split at h
        · simp at h
        · split at h
          · simp at h
          · rename_i dpair dir1 hadd
            split at h
            · simp at h
            · simp at h
            · rename_i hal hdr0 hst hallo
              simp only [Option.some.injEq, Prod.mk.injEq] at h
              obtain ⟨-, h2, h3⟩ := h
              subst h2; subst h3
              refine ⟨tr1 ++ hst.log.map Ev.ws, sector, st1.curSec, by simp, ?_⟩
              intro e he
              rcases List.mem_append.mp he with he1 | he2
              · exact htr1' e he1
              · obtain ⟨s, -, rfl⟩ := List.mem_map.mp he2
                simp
end NachFS

namespace NachFS

/-- The state after a successful root-level `Create stE "f" 100`: the
header for "f" written at sector 0, the root directory holding "f",
and the bitmap with sectors 0 (header) and 1 (data) claimed. -/
def stSucc : FsSt :=
  ⟨updateF (fun _ => Sector.raw) 0
     (Sector.hdr ⟨100, 1, (1 : Int) :: List.replicate 27 0, -1, -1⟩),
   updateF (fun _ => emptyDir) DirectorySector (dirWith "f" 0 false),
   ⟨List.replicate 2 true ++ List.replicate 14 false⟩,
   DirectorySector, dirWith "f" 0 false⟩

/-- C5 witness: the amended theorem applied to a concrete successful
create on an empty root, whose trace is exactly header write, then
directory flush, then bitmap flush. -/
theorem c5_create_witness :
    ∃ pre sector parent,
      [Ev.ws 0, Ev.flushDir DirectorySector, Ev.flushBM] =
        pre ++ [Ev.ws sector, Ev.flushDir parent, Ev.flushBM] ∧
      ∀ e ∈ pre, e ≠ Ev.flushBM :=
  (c5_create_all_or_nothing stE "f" 100 jk0 rfl).2 stSucc
    [Ev.ws 0, Ev.flushDir DirectorySector, Ev.flushBM] rfl
end NachFS
